import Mathlib

/-!
Verification of the Telegram MCP bridge server (server.js) against its
specification.  The definitions below are a shallow embedding of the
bridging core: the durable message queue (`MessageQueue`), the session
registry, the transport send helper (`sendTelegramMessage`), the
ingestion loop step (`pollTelegramStep`), the broadcast fan-out
(`broadcastToSessions`) and the unified `interact` facade.

Effects are made explicit: `crypto.randomBytes(4)` becomes a byte-list
argument, `Date.now()` a timestamp argument, the Telegram HTTP calls an
oracle (`SendEnv`) recording each call's outcome, and the backing JSON
file an explicit `Option QueueFile` component of the state.
-/

/-- One queued message, as built by `MessageQueue.enqueue`:
`{id, text, sender, ts}`. -/
structure Msg where
  id : String
  text : String
  sender : String
  ts : Int
deriving DecidableEq, Repr

/-- The persisted shape of a queue file: `{pending, delivered}`. -/
structure QueueFile where
  pending : List Msg
  delivered : List Msg
deriving DecidableEq, Repr

/-- JavaScript `arr.slice(-n)` for a natural `n`: the last `n` elements,
except that `slice(-0)` is `slice(0)`, the whole array. -/
def jsSliceNeg (n : Nat) (l : List α) : List α :=
  if n = 0 then l else l.drop (l.length - n)

/-- The in-process state of a `MessageQueue` object: the in-memory
`_pending` and `_delivered` arrays plus the current content of the
backing file (`none` when the file does not exist). -/
structure MessageQueue where
  pending : List Msg
  delivered : List Msg
  file : Option QueueFile
deriving DecidableEq, Repr

/-- `_load()`: a missing (or corrupt, treated alike) file yields the empty
queue; otherwise pending is taken as stored and delivered is trimmed with
`slice(-MAX_HISTORY)`. -/
def MessageQueue.load (mh : Nat) (f : Option QueueFile) : MessageQueue :=
  match f with
  | none => ⟨[], [], none⟩
  | some fl => ⟨fl.pending, jsSliceNeg mh fl.delivered, some fl⟩

/-- `_save()`: rewrite the whole backing file with the current pending list
and the delivered list trimmed to the last `MAX_HISTORY` entries. -/
def MessageQueue.save (q : MessageQueue) (mh : Nat) : MessageQueue :=
  { q with file := some ⟨q.pending, jsSliceNeg mh q.delivered⟩ }

/-- The character used for hex digit `n` of `crypto`'s lowercase hex
encoding (0-9 then a-f, matching `Nat.digitChar` on 0..15). -/
def hexDigit (n : Nat) : Char :=
  Nat.digitChar n

/-- Hex encoding of a byte list (`Buffer.toString("hex")`): two hex digits
per byte, high nibble first. -/
def bytesToHex : List Nat → List Char
  | [] => []
  | b :: rest => hexDigit (b / 16) :: hexDigit (b % 16) :: bytesToHex rest

/-- `crypto.randomBytes(k).toString("hex")` applied to the drawn bytes. -/
def randomHexId (bytes : List Nat) : String :=
  ⟨bytesToHex bytes⟩

/-- `enqueue(text, sender)`: build the message from the drawn random bytes
and the current clock, append it to pending, save, return it. -/
def MessageQueue.enqueue (q : MessageQueue) (mh : Nat) (rand : List Nat)
    (ts : Int) (text sender : String) : Msg × MessageQueue :=
  let msg : Msg := ⟨randomHexId rand, text, sender, ts⟩
  (msg, MessageQueue.save { q with pending := q.pending ++ [msg] } mh)

/-- `poll()`: return `[]` untouched when nothing is pending; otherwise
splice out all pending messages, push them onto delivered, save, and
return them in their original order. -/
def MessageQueue.poll (q : MessageQueue) (mh : Nat) : List Msg × MessageQueue :=
  if q.pending = [] then ([], q)
  else
    let msgs := q.pending
    (msgs, MessageQueue.save { q with pending := [], delivered := q.delivered ++ msgs } mh)

/-- `pollSince(sinceTs)`: partition pending into fresh (`ts > sinceTs`) and
stale, push stale then fresh onto delivered, clear pending, save, and
return only the fresh partition. -/
def MessageQueue.pollSince (q : MessageQueue) (mh : Nat) (sinceTs : Int) :
    List Msg × MessageQueue :=
  if q.pending = [] then ([], q)
  else
    let fresh := q.pending.filter (fun m => decide (sinceTs < m.ts))
    let stale := q.pending.filter (fun m => !decide (sinceTs < m.ts))
    (fresh,
      MessageQueue.save
        { q with pending := [], delivered := (q.delivered ++ stale) ++ fresh } mh)

/-- `pendingCount()`. -/
def MessageQueue.pendingCount (q : MessageQueue) : Nat :=
  q.pending.length

/-- `clear()`: empty both lists and save. -/
def MessageQueue.clear (q : MessageQueue) (mh : Nat) : MessageQueue :=
  MessageQueue.save { q with pending := [], delivered := [] } mh

/-- Length of the delivered list currently stored in the backing file
(0 when the file does not exist). -/
def MessageQueue.fileDeliveredLen (q : MessageQueue) : Nat :=
  match q.file with
  | none => 0
  | some f => f.delivered.length

/-- A fresh queue whose backing file does not exist yet. -/
def emptyQueue : MessageQueue :=
  ⟨[], [], none⟩

/-- One call of `enqueue` with its drawn randomness and clock reading. -/
structure EnqueueCall where
  rand : List Nat
  ts : Int
  text : String
  sender : String
deriving DecidableEq, Repr

/-- The message a single `enqueue` call constructs. -/
def callMsg (c : EnqueueCall) : Msg :=
  ⟨randomHexId c.rand, c.text, c.sender, c.ts⟩

/-- A sequence of `enqueue` calls applied in order. -/
def enqueueSeq (mh : Nat) (calls : List EnqueueCall) (q : MessageQueue) :
    MessageQueue :=
  calls.foldl (fun acc c => (acc.enqueue mh c.rand c.ts c.text c.sender).2) q

lemma enqueue_pending (q : MessageQueue) (mh : Nat) (rand : List Nat)
    (ts : Int) (text sender : String) :
    ((q.enqueue mh rand ts text sender).2).pending
      = q.pending ++ [⟨randomHexId rand, text, sender, ts⟩] := rfl

lemma enqueue_delivered (q : MessageQueue) (mh : Nat) (rand : List Nat)
    (ts : Int) (text sender : String) :
    ((q.enqueue mh rand ts text sender).2).delivered = q.delivered := rfl

lemma enqueueSeq_pending (mh : Nat) :
    ∀ (calls : List EnqueueCall) (q : MessageQueue),
      (enqueueSeq mh calls q).pending = q.pending ++ calls.map callMsg := by
  intro calls
  induction calls with
  | nil => intro q; simp [enqueueSeq]
  | cons c rest ih =>
      intro q
      simp only [enqueueSeq, List.foldl_cons, List.map_cons]
      have h := ih ((q.enqueue mh c.rand c.ts c.text c.sender).2)
      simp only [enqueueSeq] at h
      rw [h, enqueue_pending]
      simp [callMsg]

lemma poll_snd_pending (q : MessageQueue) (mh : Nat) :
    ((q.poll mh).2).pending = [] := by
  unfold MessageQueue.poll
  split
  · next h => simpa using h
  · rfl

lemma poll_fst_of_pending_nil (q : MessageQueue) (mh : Nat)
    (h : q.pending = []) : (q.poll mh).1 = [] := by
  unfold MessageQueue.poll
  rw [if_pos h]

/-- C1: for every queue state and every cutoff timestamp, `pollSince`
returns exactly the pending messages with timestamp strictly greater than
the cutoff, in insertion order; every pending message, fresh and stale
alike, is appended to delivered; and the pending count immediately
afterwards is 0. -/
theorem pollSince_drains_and_returns_fresh (q : MessageQueue) (mh : Nat)
    (sinceTs : Int) :
    (q.pollSince mh sinceTs).1
        = q.pending.filter (fun m => decide (sinceTs < m.ts)) ∧
    ((q.pollSince mh sinceTs).2).pendingCount = 0 ∧
    ((q.pollSince mh sinceTs).2).delivered
        = (q.delivered ++ q.pending.filter (fun m => !decide (sinceTs < m.ts)))
            ++ q.pending.filter (fun m => decide (sinceTs < m.ts)) := by
  unfold MessageQueue.pollSince
  by_cases h : q.pending = []
  · rw [if_pos h]
    simp [h, MessageQueue.pendingCount]
  · rw [if_neg h]
    refine ⟨rfl, ?_, rfl⟩
    simp [MessageQueue.pendingCount, MessageQueue.save]

/-- C3: for every sequence of enqueue calls on one queue, `poll()` removes
and returns all pending messages in exactly insertion order, and an
immediately following `poll()` returns the empty list. -/
theorem poll_fifo_and_drains (mh : Nat) (calls : List EnqueueCall)
    (q : MessageQueue) :
    ((enqueueSeq mh calls q).poll mh).1 = q.pending ++ calls.map callMsg ∧
    (((enqueueSeq mh calls q).poll mh).2).pendingCount = 0 ∧
    ((((enqueueSeq mh calls q).poll mh).2).poll mh).1 = [] := by
  have hp := enqueueSeq_pending mh calls q
  refine ⟨?_, ?_, ?_⟩
  · unfold MessageQueue.poll
    by_cases h : (enqueueSeq mh calls q).pending = []
    · rw [if_pos h]
      rw [hp] at h
      exact h.symm
    · rw [if_neg h]
      exact hp
  · simp [MessageQueue.pendingCount, poll_snd_pending]
  · exact poll_fst_of_pending_nil _ mh (poll_snd_pending _ mh)

lemma jsSliceNeg_length_le {α : Type} (n : Nat) (l : List α) (hn : 0 < n) :
    (jsSliceNeg n l).length ≤ n := by
  unfold jsSliceNeg
  rw [if_neg (Nat.pos_iff_ne_zero.mp hn)]
  rw [List.length_drop]
  omega

lemma jsSliceNeg_suffix {α : Type} (n : Nat) (l : List α) :
    List.IsSuffix (jsSliceNeg n l) l := by
  unfold jsSliceNeg
  split
  · exact List.suffix_refl l
  · exact List.drop_suffix _ l

lemma save_file (q : MessageQueue) (mh : Nat) :
    (q.save mh).file = some ⟨q.pending, jsSliceNeg mh q.delivered⟩ := rfl

lemma save_fileDeliveredLen (q : MessageQueue) (mh : Nat) (hmh : 0 < mh) :
    (q.save mh).fileDeliveredLen ≤ mh := by
  simp only [MessageQueue.fileDeliveredLen, save_file]
  exact jsSliceNeg_length_le mh q.delivered hmh

/-- C4 counterexample: with history cap 1, two enqueues followed by a
`poll()` leave the queue object's delivered list at length 2, above the
cap — only the copy written to the backing file is trimmed. -/
theorem delivered_inmemory_exceeds_cap :
    1 < ((((emptyQueue.enqueue 1 [0, 0, 0, 0] 5 "a" "user").2).enqueue 1
            [0, 0, 0, 1] 6 "b" "user").2.poll 1).2.delivered.length := by
  decide

/-- C4 (amended): every queue operation keeps the persisted delivered list
(the one `_save` writes to the backing file) at no more than `MAX_HISTORY`
entries when the cap is positive, and what `_save` stores is a suffix of
the full delivered history, so the oldest entries are the ones evicted. -/
theorem persisted_delivered_capped (q : MessageQueue) (mh : Nat)
    (rand : List Nat) (ts sinceTs : Int) (text sender : String)
    (hmh : 0 < mh) (hq : q.fileDeliveredLen ≤ mh) :
    ((q.enqueue mh rand ts text sender).2).fileDeliveredLen ≤ mh ∧
    ((q.poll mh).2).fileDeliveredLen ≤ mh ∧
    ((q.pollSince mh sinceTs).2).fileDeliveredLen ≤ mh ∧
    (q.clear mh).fileDeliveredLen ≤ mh ∧
    ((q.save mh).fileDeliveredLen ≤ mh ∧
      ∀ f, (q.save mh).file = some f → List.IsSuffix f.delivered q.delivered) := by
  refine ⟨save_fileDeliveredLen _ mh hmh, ?_, ?_,
    save_fileDeliveredLen _ mh hmh,
    save_fileDeliveredLen _ mh hmh, ?_⟩
  · unfold MessageQueue.poll
    split
    · exact hq
    · exact save_fileDeliveredLen _ mh hmh
  · unfold MessageQueue.pollSince
    split
    · exact hq
    · exact save_fileDeliveredLen _ mh hmh
  · intro f hf
    rw [save_file] at hf
    cases hf
    exact jsSliceNeg_suffix mh q.delivered

theorem persisted_delivered_capped_witness :
    (0 < 1 ∧ emptyQueue.fileDeliveredLen ≤ 1) ∧
    (((emptyQueue.enqueue 1 [0, 0, 0, 0] 5 "a" "user").2).fileDeliveredLen ≤ 1 ∧
     ((emptyQueue.poll 1).2).fileDeliveredLen ≤ 1 ∧
     ((emptyQueue.pollSince 1 3).2).fileDeliveredLen ≤ 1 ∧
     (emptyQueue.clear 1).fileDeliveredLen ≤ 1 ∧
     ((emptyQueue.save 1).fileDeliveredLen ≤ 1 ∧
       ∀ f, (emptyQueue.save 1).file = some f →
         List.IsSuffix f.delivered emptyQueue.delivered)) :=
  ⟨⟨by decide, by decide⟩,
    persisted_delivered_capped emptyQueue 1 [0, 0, 0, 0] 5 3 "a" "user"
      (by decide) (by decide)⟩

lemma hexDigit_inj : ∀ a, a < 16 → ∀ b, b < 16 → hexDigit a = hexDigit b → a = b := by
  decide

lemma bytesToHex_inj :
    ∀ (r1 r2 : List Nat), (∀ x ∈ r1, x < 256) → (∀ x ∈ r2, x < 256) →
      bytesToHex r1 = bytesToHex r2 → r1 = r2 := by
  intro r1
  induction r1 with
  | nil =>
      intro r2 _ _ h
      cases r2 with
      | nil => rfl
      | cons b rest => simp [bytesToHex] at h
  | cons a rest ih =>
      intro r2 h1 h2 h
      cases r2 with
      | nil => simp [bytesToHex] at h
      | cons b rest2 =>
          simp only [bytesToHex, List.cons.injEq] at h
          obtain ⟨hhi, hlo, htail⟩ := h
          have ha : a < 256 := h1 a (List.mem_cons_self a rest)
          have hb : b < 256 := h2 b (List.mem_cons_self b rest2)
          have hahi : a / 16 < 16 := by omega
          have hbhi : b / 16 < 16 := by omega
          have halo : a % 16 < 16 := Nat.mod_lt a (by omega)
          have hblo : b % 16 < 16 := Nat.mod_lt b (by omega)
          have e1 : a / 16 = b / 16 := hexDigit_inj _ hahi _ hbhi hhi
          have e2 : a % 16 = b % 16 := hexDigit_inj _ halo _ hblo hlo
          have : a = b := by omega
          subst this
          have tl : rest = rest2 :=
            ih rest2 (fun x hx => h1 x (List.mem_cons_of_mem a hx))
              (fun x hx => h2 x (List.mem_cons_of_mem a hx)) htail
          rw [tl]

lemma randomHexId_inj (r1 r2 : List Nat) (h1 : ∀ x ∈ r1, x < 256)
    (h2 : ∀ x ∈ r2, x < 256) (h : randomHexId r1 = randomHexId r2) :
    r1 = r2 := by
  unfold randomHexId at h
  have hd : bytesToHex r1 = bytesToHex r2 := by
    have := congrArg String.data h
    simpa using this
  exact bytesToHex_inj r1 r2 h1 h2 hd

/-- C9 counterexample: when the random byte source yields the same four
bytes for two consecutive `enqueue` calls, the two returned messages carry
the same id — the code draws 4 random bytes with no uniqueness check, so
distinct ids are not guaranteed for every pair of calls. -/
theorem enqueue_ids_can_collide :
    ((emptyQueue.enqueue 200 [0, 0, 0, 0] 5 "a" "user").1).id
      = ((((emptyQueue.enqueue 200 [0, 0, 0, 0] 5 "a" "user").2).enqueue 200
            [0, 0, 0, 0] 6 "b" "user").1).id := by
  rfl

/-- C9 (amended): two `enqueue` calls on the same queue return messages
with distinct ids whenever the underlying random byte source yields
distinct byte strings for the two calls, because hex encoding is injective
on byte lists. -/
theorem enqueue_ids_differ_of_distinct_randomness (q : MessageQueue)
    (mh : Nat) (r1 r2 : List Nat) (ts1 ts2 : Int) (t1 t2 s1 s2 : String)
    (hb1 : ∀ x ∈ r1, x < 256) (hb2 : ∀ x ∈ r2, x < 256) (hne : r1 ≠ r2) :
    (((q.enqueue mh r1 ts1 t1 s1).1).id
        == ((((q.enqueue mh r1 ts1 t1 s1).2).enqueue mh r2 ts2 t2 s2).1).id)
      = false := by
  have hid1 : ((q.enqueue mh r1 ts1 t1 s1).1).id = randomHexId r1 := rfl
  have hid2 :
      ((((q.enqueue mh r1 ts1 t1 s1).2).enqueue mh r2 ts2 t2 s2).1).id
        = randomHexId r2 := rfl
  rw [hid1, hid2]
  rw [beq_eq_false_iff_ne]
  intro h
  exact hne (randomHexId_inj r1 r2 hb1 hb2 h)

theorem enqueue_ids_differ_of_distinct_randomness_witness :
    ((∀ x ∈ [0, 0, 0, 0], x < 256) ∧ (∀ x ∈ [0, 0, 0, 1], x < 256) ∧
      [0, 0, 0, 0] ≠ [0, 0, 0, 1]) ∧
    (((emptyQueue.enqueue 200 [0, 0, 0, 0] 5 "a" "user").1).id
        == ((((emptyQueue.enqueue 200 [0, 0, 0, 0] 5 "a" "user").2).enqueue 200
              [0, 0, 0, 1] 6 "b" "user").1).id)
      = false :=
  ⟨⟨by decide, by decide, by decide⟩,
    enqueue_ids_differ_of_distinct_randomness emptyQueue 200 [0, 0, 0, 0]
      [0, 0, 0, 1] 5 6 "a" "b" "user" "user" (by decide) (by decide) (by decide)⟩

/-- Outcome of one `tgApi("sendMessage", ...)` call: the promise rejected
(network error, timeout, or unparseable body), or a parsed JSON response
with its `ok` flag; `parseErr` records whether a rejection was a
formatting-parse rejection (the code never inspects this). -/
inductive ApiOutcome where
  | thrown : ApiOutcome
  | resp (ok : Bool) (parseErr : Bool) : ApiOutcome
deriving DecidableEq, Repr

/-- The transport oracle for one `sendTelegramMessage` invocation: the
outcome of the first (Markdown) call and of the plain retry, when made. -/
structure SendEnv where
  call1 : ApiOutcome
  call2 : ApiOutcome
deriving DecidableEq, Repr

/-- `sendTelegramMessage(text)`: returns false when unconfigured; tries
the Markdown send, retries plain on a non-ok response, and maps every
thrown error to false via the surrounding catch.  The second component
counts the API calls made. -/
def sendTelegramMessage (botToken chatId : String) (env : SendEnv) :
    Bool × Nat :=
  if botToken = "" ∨ chatId = "" then (false, 0)
  else
    match env.call1 with
    | .thrown => (false, 1)
    | .resp true _ => (true, 1)
    | .resp false _ =>
        match env.call2 with
        | .thrown => (false, 2)
        | .resp ok2 _ => (ok2, 2)

/-- C7 counterexample: with a first response that is unsuccessful but not
a formatting-parse rejection, the code still performs the plain-text
retry (two API calls are made) — the retry is not taken exactly on
formatting-parse rejections, but on every non-ok first response. -/
theorem send_retry_not_only_parse_errors :
    (sendTelegramMessage "t" "1"
        ⟨ApiOutcome.resp false false, ApiOutcome.resp true false⟩).2 = 2 ∧
    ApiOutcome.resp false false ≠ ApiOutcome.resp false true := by
  exact ⟨rfl, by decide⟩

/-- C7 (amended): `sendTelegramMessage` never throws (it is a total
function into Bool in this embedding); when configured, it retries once as
plain text exactly when the first attempt yields a non-ok API response of
any kind (formatting-parse rejections included), returns true exactly when
the first attempt succeeds or the retry does, and makes at most two API
calls. -/
theorem sendTelegramMessage_retry_characterization (botToken chatId : String)
    (env : SendEnv) (h1 : botToken ≠ "") (h2 : chatId ≠ "") :
    ((sendTelegramMessage botToken chatId env).2 = 2 ↔
      ∃ pe, env.call1 = ApiOutcome.resp false pe) ∧
    ((sendTelegramMessage botToken chatId env).1 = true ↔
      ((∃ pe, env.call1 = ApiOutcome.resp true pe) ∨
        ((∃ pe, env.call1 = ApiOutcome.resp false pe) ∧
          ∃ pe2, env.call2 = ApiOutcome.resp true pe2))) ∧
    (sendTelegramMessage botToken chatId env).2 ≤ 2 := by
  have hcfg : ¬(botToken = "" ∨ chatId = "") := by
    intro h
    cases h with
    | inl h => exact h1 h
    | inr h => exact h2 h
  obtain ⟨c1, c2⟩ := env
  unfold sendTelegramMessage
  rw [if_neg hcfg]
  cases c1 with
  | thrown => simp
  | resp ok1 pe1 =>
      cases ok1 with
      | true => simp
      | false =>
          cases c2 with
          | thrown => simp
          | resp ok2 pe2 =>
              cases ok2 with
              | true => simp
              | false => simp

theorem sendTelegramMessage_retry_characterization_witness :
    (("t" : String) ≠ "" ∧ ("1" : String) ≠ "") ∧
    (((sendTelegramMessage "t" "1"
          ⟨ApiOutcome.resp false false, ApiOutcome.thrown⟩).2 = 2 ↔
        ∃ pe, (SendEnv.mk (ApiOutcome.resp false false) ApiOutcome.thrown).call1
          = ApiOutcome.resp false pe) ∧
      ((sendTelegramMessage "t" "1"
          ⟨ApiOutcome.resp false false, ApiOutcome.thrown⟩).1 = true ↔
        ((∃ pe, (SendEnv.mk (ApiOutcome.resp false false) ApiOutcome.thrown).call1
            = ApiOutcome.resp true pe) ∨
          ((∃ pe, (SendEnv.mk (ApiOutcome.resp false false) ApiOutcome.thrown).call1
              = ApiOutcome.resp false pe) ∧
            ∃ pe2, (SendEnv.mk (ApiOutcome.resp false false) ApiOutcome.thrown).call2
              = ApiOutcome.resp true pe2))) ∧
      (sendTelegramMessage "t" "1"
          ⟨ApiOutcome.resp false false, ApiOutcome.thrown⟩).2 ≤ 2) :=
  ⟨⟨by decide, by decide⟩,
    sendTelegramMessage_retry_characterization "t" "1"
      ⟨ApiOutcome.resp false false, ApiOutcome.thrown⟩ (by decide) (by decide)⟩

/-- The successful `interact` JSON result: `{ok: true, now, messages,
pending, sent?}`, with each returned message slimmed to `(text, ts)`. -/
structure InteractOk where
  now : Int
  messages : List (String × Int)
  pending : Nat
  sent : Option Bool
deriving DecidableEq, Repr

/-- An `interact` response: the early `{ok: false, error: "send failed"}`
result, or the normal `{ok: true, ...}` result. -/
inductive InteractOut where
  | fail (now : Int) : InteractOut
  | ok (r : InteractOk) : InteractOut
deriving DecidableEq, Repr

/-- Which of the interact handler's steps ran: the step-2 wait loop and
the step-3 drain. -/
structure InteractTrace where
  waited : Bool
  drained : Bool
deriving DecidableEq, Repr

/-- Steps 2 and 3 of the interact handler: the wait loop (which only
observes the queue) followed by the drain via `pollSince` when `since_ts`
is truthy, else `poll`. -/
def interactRest (mh : Nat) (now wait sinceTs : Int) (sent : Option Bool)
    (q : MessageQueue) : InteractOut × MessageQueue × InteractTrace :=
  let waited := decide (0 < wait)
  let pr := if sinceTs ≠ 0 then q.pollSince mh sinceTs else q.poll mh
  let slim := pr.1.map (fun m => (m.text, m.ts))
  (InteractOut.ok ⟨now, slim, pr.2.pendingCount, sent⟩, pr.2, ⟨waited, true⟩)

/-- The `interact` tool handler.  `argMessage` is `args?.message` (the
`|| null` truthiness turns the empty string into no message), `argWait`
and `argSince` the parsed numeric arguments; `env` is the transport
oracle consumed if a send is attempted.  Returns the response, the queue
state after the call, and which steps ran. -/
def interact (mh : Nat) (botToken chatId : String) (env : SendEnv)
    (now : Int) (argMessage : Option String) (argWait argSince : Int)
    (q : MessageQueue) : InteractOut × MessageQueue × InteractTrace :=
  let message : Option String :=
    match argMessage with
    | none => none
    | some s => if s = "" then none else some s
  let wait : Int := min (max argWait 0) 300
  let sinceTs : Int := argSince
  match message with
  | some _ =>
      let ok := (sendTelegramMessage botToken chatId env).1
      if ok then interactRest mh now wait sinceTs (some true) q
      else (InteractOut.fail now, q, ⟨false, false⟩)
  | none => interactRest mh now wait sinceTs none q

/-- C2: when an interact call includes a (non-empty) message and the
transport send fails, the handler returns the error result immediately:
the queue — pending, delivered and backing file alike — is exactly the
queue before the call, and neither the wait step nor any drain ran. -/
theorem interact_send_failure_no_wait_no_drain (mh : Nat)
    (botToken chatId : String) (env : SendEnv) (now : Int) (s : String)
    (argWait argSince : Int) (q : MessageQueue) (hs : s ≠ "")
    (hsend : (sendTelegramMessage botToken chatId env).1 = false) :
    interact mh botToken chatId env now (some s) argWait argSince q
      = (InteractOut.fail now, q, ⟨false, false⟩) := by
  unfold interact
  simp only [if_neg hs, hsend]
  rfl

theorem interact_send_failure_no_wait_no_drain_witness :
    (("hi" : String) ≠ "" ∧
      (sendTelegramMessage "t" "1" ⟨ApiOutcome.thrown, ApiOutcome.thrown⟩).1
        = false) ∧
    interact 200 "t" "1" ⟨ApiOutcome.thrown, ApiOutcome.thrown⟩ 100
        (some "hi") 5 0 emptyQueue
      = (InteractOut.fail 100, emptyQueue, ⟨false, false⟩) :=
  ⟨⟨by decide, by decide⟩,
    interact_send_failure_no_wait_no_drain 200 "t" "1"
      ⟨ApiOutcome.thrown, ApiOutcome.thrown⟩ 100 "hi" 5 0 emptyQueue
      (by decide) (by decide)⟩

/-- One entry of the session registry: `{machine, agent, startedAt,
lastSeen, active}`. -/
structure Session where
  machine : String
  agent : String
  startedAt : Int
  lastSeen : Int
  active : Bool
deriving DecidableEq, Repr

/-- The registry's sessions object, as an entry list in insertion order
(`Object.entries`). -/
abbrev Sessions := List (String × Session)

/-- `register(sessionId, machine, agent)`: upsert with
`active = true, startedAt = lastSeen = now`.  The JS object keeps the
existing key position on overwrite and appends a new key at the end. -/
def register (now : Int) (sid machine agent : String) (ss : Sessions) :
    Sessions :=
  if ss.any (fun p => p.1 == sid) then
    ss.map (fun p => if p.1 = sid then (p.1, ⟨machine, agent, now, now, true⟩) else p)
  else
    ss ++ [(sid, ⟨machine, agent, now, now, true⟩)]

/-- `heartbeat(sessionId)`: set `lastSeen = now` on the existing entry;
no-op for an unknown session. -/
def heartbeat (now : Int) (sid : String) (ss : Sessions) : Sessions :=
  ss.map (fun p => if p.1 = sid then (p.1, { p.2 with lastSeen := now }) else p)

/-- `deactivate(sessionId)`: set `active = false` on the existing entry;
no-op for an unknown session. -/
def deactivate (sid : String) (ss : Sessions) : Sessions :=
  ss.map (fun p => if p.1 = sid then (p.1, { p.2 with active := false }) else p)

/-- `getActive()`: the entries with `active` set and seen within the last
600 seconds. -/
def getActive (now : Int) (ss : Sessions) : Sessions :=
  ss.filter (fun p => p.2.active && decide (now - p.2.lastSeen < 600))

/-- C8: a session entry appears in `getActive()` exactly when it is in
the registry with its active flag true and `now - lastSeen` strictly
below the 600-second liveness window; and after `deactivate(id)` no entry
under that id appears in `getActive()`. -/
theorem getActive_iff_live (now : Int) (ss : Sessions) (sid : String)
    (s : Session) :
    ((sid, s) ∈ getActive now ss ↔
      ((sid, s) ∈ ss ∧ s.active = true ∧ now - s.lastSeen < 600)) ∧
    (getActive now (deactivate sid ss)).filter (fun p => p.1 == sid) = [] := by
  constructor
  · simp only [getActive, List.mem_filter, Bool.and_eq_true, decide_eq_true_eq]
  · rw [List.filter_eq_nil_iff]
    intro p hp
    simp only [getActive, List.mem_filter, Bool.and_eq_true,
      decide_eq_true_eq] at hp
    obtain ⟨hmem, hact, _⟩ := hp
    simp only [deactivate, List.mem_map] at hmem
    obtain ⟨p0, _, hp0⟩ := hmem
    by_cases he : p0.1 = sid
    · rw [if_pos he] at hp0
      rw [← hp0] at hact
      simp at hact
    · rw [if_neg he] at hp0
      rw [← hp0]
      simpa using he

/-- An inbound Telegram message as the loop reads it: the chat id already
passed through `String(...)`, and the text. -/
structure TgMessage where
  chatId : String
  text : String
deriving DecidableEq, Repr

/-- One entry of `getUpdates().result`. -/
structure TgUpdate where
  update_id : Nat
  message : Option TgMessage
deriving DecidableEq, Repr

/-- The externally visible action one update triggers: a direct command
reply, a broadcast of the text to the session queues, or the
unauthorized-chat rejection (log + skip). -/
inductive Act where
  | startReply : Act
  | sessionsReply : Act
  | broadcast (text : String) : Act
  | rejectedUnauthorized : Act
deriving DecidableEq, Repr

/-- An action tagged with the update id that triggered it. -/
structure Event where
  uid : Nat
  act : Act
deriving DecidableEq, Repr

/-- The ingestion loop's mutable state: the `lastUpdateId` offset cursor
and the `processedUpdates` set in insertion order. -/
structure PollState where
  lastUpdateId : Nat
  processed : List Nat
deriving DecidableEq, Repr

/-- The loop state at process start. -/
def initPollState (n : Nat) : PollState :=
  ⟨n, []⟩

/-- Insert a fresh id into `processedUpdates` and evict the oldest entry
once the set holds more than 1000 ids. -/
def dedupInsert (processed : List Nat) (uid : Nat) : List Nat :=
  let p := processed ++ [uid]
  if 1000 < p.length then p.drop 1 else p

/-- The body of `pollTelegram`'s per-update loop: advance the cursor,
skip duplicates, skip textless updates, reject unauthorized chats, answer
the `/start` and `/sessions` commands, and otherwise broadcast the text. -/
def pollTelegramStep (chatCfg : String) (st : PollState) (u : TgUpdate) :
    PollState × Option Event :=
  let st1 : PollState := { st with lastUpdateId := u.update_id + 1 }
  if u.update_id ∈ st.processed then (st1, none)
  else
    let st2 : PollState := { st1 with processed := dedupInsert st.processed u.update_id }
    match u.message with
    | none => (st2, none)
    | some m =>
        if m.text = "" then (st2, none)
        else if chatCfg ≠ "" ∧ m.chatId ≠ chatCfg then
          (st2, some ⟨u.update_id, Act.rejectedUnauthorized⟩)
        else if m.text = "/start" then (st2, some ⟨u.update_id, Act.startReply⟩)
        else if m.text = "/sessions" then (st2, some ⟨u.update_id, Act.sessionsReply⟩)
        else (st2, some ⟨u.update_id, Act.broadcast m.text⟩)

/-- One `pollTelegram` call's loop over a returned batch of updates,
collecting the triggered events in order. -/
def pollTelegramRun (chatCfg : String) (st : PollState) :
    List TgUpdate → PollState × List Event
  | [] => (st, [])
  | u :: rest =>
      let pr := pollTelegramStep chatCfg st u
      let rr := pollTelegramRun chatCfg pr.1 rest
      (rr.1, pr.2.toList ++ rr.2)

/-- Number of events for a given update id. -/
def countEventsFor (uid : Nat) (evs : List Event) : Nat :=
  (evs.filter (fun e => e.uid == uid)).length

/-- Whether an action enqueues into session queues. -/
def isBroadcastAct : Act → Bool
  | Act.broadcast _ => true
  | _ => false

/-- Number of broadcast (enqueue) actions for a given update id. -/
def countEnqueueActions (uid : Nat) (evs : List Event) : Nat :=
  (evs.filter (fun e => e.uid == uid && isBroadcastAct e.act)).length

lemma dedupInsert_no_evict (processed : List Nat) (uid : Nat)
    (h : processed.length < 1000) :
    dedupInsert processed uid = processed ++ [uid] := by
  unfold dedupInsert
  rw [if_neg]
  simp only [List.length_append, List.length_cons, List.length_nil]
  omega

lemma pollTelegramStep_dup (chatCfg : String) (st : PollState) (u : TgUpdate)
    (h : u.update_id ∈ st.processed) :
    pollTelegramStep chatCfg st u
      = ({ st with lastUpdateId := u.update_id + 1 }, none) := by
  unfold pollTelegramStep
  rw [if_pos h]

lemma pollTelegramStep_new_processed (chatCfg : String) (st : PollState)
    (u : TgUpdate) (h : u.update_id ∉ st.processed) :
    (pollTelegramStep chatCfg st u).1.processed
      = dedupInsert st.processed u.update_id := by
  unfold pollTelegramStep
  rw [if_neg h]
  cases hm : u.message with
  | none => rfl
  | some m =>
      simp only
      by_cases h1 : m.text = ""
      · rw [if_pos h1]
      · rw [if_neg h1]
        by_cases h2 : chatCfg ≠ "" ∧ m.chatId ≠ chatCfg
        · rw [if_pos h2]
        · rw [if_neg h2]
          by_cases h3 : m.text = "/start"
          · rw [if_pos h3]
          · rw [if_neg h3]
            by_cases h4 : m.text = "/sessions"
            · rw [if_pos h4]
            · rw [if_neg h4]

lemma pollTelegramStep_event_uid (chatCfg : String) (st : PollState)
    (u : TgUpdate) (e : Event) (h : (pollTelegramStep chatCfg st u).2 = some e) :
    e.uid = u.update_id := by
  unfold pollTelegramStep at h
  by_cases hd : u.update_id ∈ st.processed
  · rw [if_pos hd] at h
    simp at h
  · rw [if_neg hd] at h
    cases hm : u.message with
    | none =>
        rw [hm] at h
        simp at h
    | some m =>
        rw [hm] at h
        simp only at h
        by_cases h1 : m.text = ""
        · rw [if_pos h1] at h
          simp at h
        · rw [if_neg h1] at h
          by_cases h2 : chatCfg ≠ "" ∧ m.chatId ≠ chatCfg
          · rw [if_pos h2] at h
            cases h
            rfl
          · rw [if_neg h2] at h
            by_cases h3 : m.text = "/start"
            · rw [if_pos h3] at h
              cases h
              rfl
            · rw [if_neg h3] at h
              by_cases h4 : m.text = "/sessions"
              · rw [if_pos h4] at h
                cases h
                rfl
              · rw [if_neg h4] at h
                cases h
                rfl

lemma countEventsFor_append (uid : Nat) (l1 l2 : List Event) :
    countEventsFor uid (l1 ++ l2)
      = countEventsFor uid l1 + countEventsFor uid l2 := by
  unfold countEventsFor
  rw [List.filter_append, List.length_append]

lemma dedup_run_bound (chatCfg : String) :
    ∀ (us : List TgUpdate) (st : PollState) (uid : Nat),
      st.processed.length + us.length ≤ 1000 →
      ((uid ∈ st.processed →
          countEventsFor uid (pollTelegramRun chatCfg st us).2 = 0) ∧
        countEventsFor uid (pollTelegramRun chatCfg st us).2 ≤ 1) := by
  intro us
  induction us with
  | nil =>
      intro st uid _
      exact ⟨fun _ => rfl, by simp [pollTelegramRun, countEventsFor]⟩
  | cons u rest ih =>
      intro st uid hlen
      simp only [List.length_cons] at hlen
      by_cases hd : u.update_id ∈ st.processed
      · -- duplicate: skipped, no event, processed unchanged
        have hstep := pollTelegramStep_dup chatCfg st u hd
        simp only [pollTelegramRun, hstep, Option.toList_none, List.nil_append]
        have hih := ih { st with lastUpdateId := u.update_id + 1 } uid (by simpa using by omega)
        exact hih
      · -- fresh id: processed grows by one, at most one event, tagged u.update_id
        have hproc := pollTelegramStep_new_processed chatCfg st u hd
        have hno : dedupInsert st.processed u.update_id
            = st.processed ++ [u.update_id] :=
          dedupInsert_no_evict st.processed u.update_id (by omega)
        have hlen2 : (pollTelegramStep chatCfg st u).1.processed.length + rest.length ≤ 1000 := by
          rw [hproc, hno]
          simp only [List.length_append, List.length_cons, List.length_nil]
          omega
        have hih := ih (pollTelegramStep chatCfg st u).1 uid hlen2
        have hmem : uid ∈ st.processed →
            uid ∈ (pollTelegramStep chatCfg st u).1.processed := by
          intro h
          rw [hproc, hno]
          exact List.mem_append_left _ h
        have hmemu : u.update_id ∈ (pollTelegramStep chatCfg st u).1.processed := by
          rw [hproc, hno]
          exact List.mem_append_right _ (List.mem_singleton.mpr rfl)
        simp only [pollTelegramRun]
        cases hev : (pollTelegramStep chatCfg st u).2 with
        | none =>
            simp only [hev, Option.toList_none, List.nil_append]
            exact ⟨fun h => hih.1 (hmem h), hih.2⟩
        | some e =>
            have huid : e.uid = u.update_id :=
              pollTelegramStep_event_uid chatCfg st u e hev
            simp only [hev, Option.toList_some, List.singleton_append]
            constructor
            · intro h
              have hne : e.uid ≠ uid := by
                rw [huid]
                intro hcontra
                rw [hcontra] at hd
                exact hd h
              have hz : countEventsFor uid [e] = 0 := by
                simp [countEventsFor, List.filter_cons, hne]
              have happ := countEventsFor_append uid [e] (pollTelegramRun chatCfg (pollTelegramStep chatCfg st u).1 rest).2
              simp only [List.singleton_append] at happ
              rw [happ, hz, hih.1 (hmem h)]
            · by_cases he : e.uid = uid
              · have hequ : uid = u.update_id := by
                  rw [← he, huid]
                have htail : countEventsFor uid (pollTelegramRun chatCfg (pollTelegramStep chatCfg st u).1 rest).2 = 0 := by
                  apply hih.1
                  rw [hequ]
                  exact hmemu
                have happ := countEventsFor_append uid [e] (pollTelegramRun chatCfg (pollTelegramStep chatCfg st u).1 rest).2
                simp only [List.singleton_append] at happ
                rw [happ, htail]
                simp [countEventsFor, List.filter_cons, he]
              · have hone : countEventsFor uid [e] = 0 := by
                  simp [countEventsFor, List.filter_cons, he]
                have happ := countEventsFor_append uid [e] (pollTelegramRun chatCfg (pollTelegramStep chatCfg st u).1 rest).2
                simp only [List.singleton_append] at happ
                rw [happ, hone]
                simpa using hih.2

lemma countEnqueue_le_countEvents (uid : Nat) (evs : List Event) :
    countEnqueueActions uid evs ≤ countEventsFor uid evs := by
  unfold countEnqueueActions countEventsFor
  have hc : (fun e : Event => e.uid == uid && isBroadcastAct e.act)
      = fun e : Event => isBroadcastAct e.act && (e.uid == uid) := by
    funext e
    exact Bool.and_comm _ _
  rw [hc, ← List.filter_filter]
  exact List.length_filter_le _ _

/-- C5: for every run of the ingestion loop over a batch of at most 1000
updates (the recent-updates set's capacity, so no eviction occurs),
processing the same update identifier twice results in at most one
broadcast enqueue action: a duplicate update is skipped before any
command handling or broadcast. -/
theorem pollTelegram_dedup_single_enqueue (chatCfg : String) (n : Nat)
    (us : List TgUpdate) (uid : Nat) (hcap : us.length ≤ 1000) :
    countEnqueueActions uid (pollTelegramRun chatCfg (initPollState n) us).2
      ≤ 1 := by
  have h := dedup_run_bound chatCfg us (initPollState n) uid
    (by simpa [initPollState] using hcap)
  exact le_trans (countEnqueue_le_countEvents uid _) h.2

theorem pollTelegram_dedup_single_enqueue_witness :
    ([(⟨7, some ⟨"1", "hello"⟩⟩ : TgUpdate),
      ⟨7, some ⟨"1", "hello"⟩⟩].length ≤ 1000) ∧
    countEnqueueActions 7
        (pollTelegramRun "" (initPollState 0)
          [⟨7, some ⟨"1", "hello"⟩⟩, ⟨7, some ⟨"1", "hello"⟩⟩]).2 ≤ 1 :=
  ⟨by decide,
    pollTelegram_dedup_single_enqueue "" 0
      [⟨7, some ⟨"1", "hello"⟩⟩, ⟨7, some ⟨"1", "hello"⟩⟩] 7 (by decide)⟩

/-- C10: when the configured authorized chat identity is the empty string,
the unauthorized-chat rejection never fires: every non-duplicate update
carrying a message with non-empty text, from any chat, triggers an event
(a command reply or a broadcast), never the rejection. -/
theorem empty_chatid_skips_authorization (st : PollState) (u : TgUpdate)
    (m : TgMessage) (hd : u.update_id ∉ st.processed)
    (hm : u.message = some m) (ht : m.text ≠ "") :
    ∃ e : Event, (pollTelegramStep "" st u).2 = some e ∧
      e.uid = u.update_id ∧
      (e.act = Act.startReply ∨ e.act = Act.sessionsReply ∨
        e.act = Act.broadcast m.text) := by
  unfold pollTelegramStep
  rw [if_neg hd, hm]
  simp only [if_neg ht]
  rw [if_neg (by simp)]
  by_cases h3 : m.text = "/start"
  · rw [if_pos h3]
    exact ⟨_, rfl, rfl, Or.inl rfl⟩
  · rw [if_neg h3]
    by_cases h4 : m.text = "/sessions"
    · rw [if_pos h4]
      exact ⟨_, rfl, rfl, Or.inr (Or.inl rfl)⟩
    · rw [if_neg h4]
      exact ⟨_, rfl, rfl, Or.inr (Or.inr rfl)⟩

theorem empty_chatid_skips_authorization_witness :
    ((3 : Nat) ∉ (initPollState 0).processed ∧
      (TgUpdate.mk 3 (some ⟨"999", "yo"⟩)).message = some ⟨"999", "yo"⟩ ∧
      (TgMessage.mk "999" "yo").text ≠ "") ∧
    (∃ e : Event,
      (pollTelegramStep "" (initPollState 0) ⟨3, some ⟨"999", "yo"⟩⟩).2 = some e ∧
      e.uid = (TgUpdate.mk 3 (some ⟨"999", "yo"⟩)).update_id ∧
      (e.act = Act.startReply ∨ e.act = Act.sessionsReply ∨
        e.act = Act.broadcast (TgMessage.mk "999" "yo").text)) :=
  ⟨⟨by decide, rfl, by decide⟩,
    empty_chatid_skips_authorization (initPollState 0) ⟨3, some ⟨"999", "yo"⟩⟩
      ⟨"999", "yo"⟩ (by decide) rfl (by decide)⟩

/-- The pending list stored in a (possibly missing) queue file. -/
def filePending (f : Option QueueFile) : List Msg :=
  match f with
  | none => []
  | some fl => fl.pending

/-- Enqueue into another session's queue: construct a `MessageQueue` from
that session's file, enqueue, and keep the saved file. -/
def otherEnqueue (mh : Nat) (rand : List Nat) (ts : Int)
    (text sender : String) (f : Option QueueFile) : Option QueueFile :=
  ((MessageQueue.load mh f).enqueue mh rand ts text sender).2.file

/-- The state `broadcastToSessions` touches: this process's in-memory
queue object and, per session id, the other sessions' queue files. -/
structure BridgeState where
  ownQueue : MessageQueue
  files : String → Option QueueFile

/-- The `for (const sid of activeIds)` loop: enqueue directly into our own
queue when `sid` is this session, otherwise load-enqueue-save that
session's queue file.  `k` indexes the random-byte stream. -/
def bcastLoop (mh : Nat) (selfId : String) (idGen : Nat → List Nat)
    (ts : Int) (text sender : String) :
    List String → Nat → BridgeState → BridgeState
  | [], _, st => st
  | sid :: rest, k, st =>
      let st' : BridgeState :=
        if sid = selfId then
          { st with ownQueue := (st.ownQueue.enqueue mh (idGen k) ts text sender).2 }
        else
          { st with
              files := fun s =>
                if s = sid then otherEnqueue mh (idGen k) ts text sender (st.files sid)
                else st.files s }
      bcastLoop mh selfId idGen ts text sender rest (k + 1) st'

/-- `broadcastToSessions(text, sender)`: fan the message out to every
active session's queue, then fall back to this process's own queue when
our session id is not among the active ids. -/
def broadcastToSessions (mh : Nat) (selfId : String)
    (activeIds : List String) (idGen : Nat → List Nat) (ts : Int)
    (text sender : String) (st : BridgeState) : BridgeState :=
  let st' := bcastLoop mh selfId idGen ts text sender activeIds 0 st
  if selfId ∈ activeIds then st'
  else
    { st' with
        ownQueue := (st'.ownQueue.enqueue mh (idGen activeIds.length) ts text sender).2 }

lemma bcastLoop_files_not_mem (mh : Nat) (selfId : String)
    (idGen : Nat → List Nat) (ts : Int) (text sender : String) :
    ∀ (l : List String) (k : Nat) (st : BridgeState) (sid : String),
      sid ∉ l →
      (bcastLoop mh selfId idGen ts text sender l k st).files sid
        = st.files sid := by
  intro l
  induction l with
  | nil => intro k st sid _; rfl
  | cons a rest ih =>
      intro k st sid hmem
      have hna : sid ≠ a := fun h => hmem (h ▸ List.mem_cons_self a rest)
      have hnr : sid ∉ rest := fun h => hmem (List.mem_cons_of_mem a h)
      simp only [bcastLoop]
      by_cases ha : a = selfId
      · rw [if_pos ha]
        exact ih (k + 1) _ sid hnr
      · rw [if_neg ha]
        rw [ih (k + 1) _ sid hnr]
        simp only
        rw [if_neg hna]

lemma bcastLoop_own_not_mem (mh : Nat) (selfId : String)
    (idGen : Nat → List Nat) (ts : Int) (text sender : String) :
    ∀ (l : List String) (k : Nat) (st : BridgeState),
      selfId ∉ l →
      (bcastLoop mh selfId idGen ts text sender l k st).ownQueue
        = st.ownQueue := by
  intro l
  induction l with
  | nil => intro k st _; rfl
  | cons a rest ih =>
      intro k st hmem
      have hna : a ≠ selfId := fun h => hmem (h ▸ List.mem_cons_self a rest)
      have hnr : selfId ∉ rest := fun h => hmem (List.mem_cons_of_mem a h)
      simp only [bcastLoop]
      rw [if_neg hna]
      exact ih (k + 1) _ hnr

lemma otherEnqueue_pending (mh : Nat) (rand : List Nat) (ts : Int)
    (text sender : String) (f : Option QueueFile) :
    filePending (otherEnqueue mh rand ts text sender f)
      = filePending f ++ [⟨randomHexId rand, text, sender, ts⟩] := by
  cases f <;> rfl

lemma bcastLoop_files_mem (mh : Nat) (selfId : String)
    (idGen : Nat → List Nat) (ts : Int) (text sender : String) :
    ∀ (l : List String) (k : Nat) (st : BridgeState) (sid : String),
      l.Nodup → sid ∈ l → sid ≠ selfId →
      ∃ m : Msg, m.text = text ∧ m.sender = sender ∧
        filePending ((bcastLoop mh selfId idGen ts text sender l k st).files sid)
          = filePending (st.files sid) ++ [m] := by
  intro l
  induction l with
  | nil => intro k st sid _ hmem; exact absurd hmem (List.not_mem_nil sid)
  | cons a rest ih =>
      intro k st sid hnd hmem hself
      have hnd' := List.nodup_cons.mp hnd
      simp only [bcastLoop]
      rcases List.mem_cons.mp hmem with heq | hrest
      · subst heq
        rw [if_neg hself]
        have hpres := bcastLoop_files_not_mem mh selfId idGen ts text sender
          rest (k + 1)
          { st with
              files := fun s =>
                if s = sid then otherEnqueue mh (idGen k) ts text sender (st.files sid)
                else st.files s } sid hnd'.1
        rw [hpres]
        simp only [if_pos rfl]
        exact ⟨⟨randomHexId (idGen k), text, sender, ts⟩, rfl, rfl,
          otherEnqueue_pending mh (idGen k) ts text sender (st.files sid)⟩
      · have hna : sid ≠ a := fun h => hnd'.1 (h ▸ hrest)
        by_cases ha : a = selfId
        · rw [if_pos ha]
          exact ih (k + 1) _ sid hnd'.2 hrest hself
        · rw [if_neg ha]
          have := ih (k + 1)
            { st with
                files := fun s =>
                  if s = a then otherEnqueue mh (idGen k) ts text sender (st.files a)
                  else st.files s } sid hnd'.2 hrest hself
          simpa [if_neg hna] using this

lemma bcastLoop_own_mem (mh : Nat) (selfId : String)
    (idGen : Nat → List Nat) (ts : Int) (text sender : String) :
    ∀ (l : List String) (k : Nat) (st : BridgeState),
      l.Nodup → selfId ∈ l →
      ∃ m : Msg, m.text = text ∧ m.sender = sender ∧
        (bcastLoop mh selfId idGen ts text sender l k st).ownQueue.pending
          = st.ownQueue.pending ++ [m] := by
  intro l
  induction l with
  | nil => intro k st _ hmem; exact absurd hmem (List.not_mem_nil selfId)
  | cons a rest ih =>
      intro k st hnd hmem
      have hnd' := List.nodup_cons.mp hnd
      simp only [bcastLoop]
      by_cases ha : a = selfId
      · rw [if_pos ha]
        subst ha
        have hpres := bcastLoop_own_not_mem mh a idGen ts text sender
          rest (k + 1)
          { st with ownQueue := (st.ownQueue.enqueue mh (idGen k) ts text sender).2 }
          hnd'.1
        rw [hpres]
        exact ⟨⟨randomHexId (idGen k), text, sender, ts⟩, rfl, rfl,
          enqueue_pending st.ownQueue mh (idGen k) ts text sender⟩
      · rw [if_neg ha]
        have hrest : selfId ∈ rest := by
          rcases List.mem_cons.mp hmem with heq | h
          · exact absurd heq.symm ha
          · exact h
        exact ih (k + 1) _ hnd'.2 hrest

/-- C6: with a duplicate-free list of live session ids, `broadcastToSessions`
enqueues a copy of the message (same text and sender) into every live
session's queue — other sessions' queue files and, when live, this
process's own queue — and when this process's session id is not among the
live ids (including the empty list), the message is still enqueued into
this process's own queue, so it is never silently dropped. -/
theorem broadcast_reaches_all_live_and_self (mh : Nat) (selfId : String)
    (activeIds : List String) (idGen : Nat → List Nat) (ts : Int)
    (text sender : String) (st : BridgeState) (hnd : activeIds.Nodup) :
    (∀ sid, sid ∈ activeIds → sid ≠ selfId →
      ∃ m : Msg, m.text = text ∧ m.sender = sender ∧
        filePending
            ((broadcastToSessions mh selfId activeIds idGen ts text sender st).files sid)
          = filePending (st.files sid) ++ [m]) ∧
    (∃ m : Msg, m.text = text ∧ m.sender = sender ∧
      (broadcastToSessions mh selfId activeIds idGen ts text sender st).ownQueue.pending
        = st.ownQueue.pending ++ [m]) := by
  unfold broadcastToSessions
  by_cases hself : selfId ∈ activeIds
  · rw [if_pos hself]
    exact ⟨fun sid hmem hne =>
        bcastLoop_files_mem mh selfId idGen ts text sender activeIds 0 st sid
          hnd hmem hne,
      bcastLoop_own_mem mh selfId idGen ts text sender activeIds 0 st hnd hself⟩
  · rw [if_neg hself]
    constructor
    · intro sid hmem hne
      exact bcastLoop_files_mem mh selfId idGen ts text sender activeIds 0 st
        sid hnd hmem hne
    · refine ⟨⟨randomHexId (idGen activeIds.length), text, sender, ts⟩, rfl, rfl, ?_⟩
      simp only [enqueue_pending]
      rw [bcastLoop_own_not_mem mh selfId idGen ts text sender activeIds 0 st hself]

theorem broadcast_reaches_all_live_and_self_witness :
    (["a", "b"] : List String).Nodup ∧
    ((∀ sid, sid ∈ (["a", "b"] : List String) → sid ≠ "b" →
      ∃ m : Msg, m.text = "ping" ∧ m.sender = "user" ∧
        filePending
            ((broadcastToSessions 200 "b" ["a", "b"] (fun _ => [0, 0, 0, 0]) 9
                "ping" "user" ⟨emptyQueue, fun _ => none⟩).files sid)
          = filePending ((fun _ => none : String → Option QueueFile) sid) ++ [m]) ∧
    (∃ m : Msg, m.text = "ping" ∧ m.sender = "user" ∧
      (broadcastToSessions 200 "b" ["a", "b"] (fun _ => [0, 0, 0, 0]) 9
          "ping" "user" ⟨emptyQueue, fun _ => none⟩).ownQueue.pending
        = emptyQueue.pending ++ [m])) :=
  ⟨by decide,
    broadcast_reaches_all_live_and_self 200 "b" ["a", "b"]
      (fun _ => [0, 0, 0, 0]) 9 "ping" "user" ⟨emptyQueue, fun _ => none⟩
      (by decide)⟩
